import Mathlib

/-!
Verification of the buffer core of the `rinput` editor against its
natural-language specification.

The development shallowly embeds `src/rinput/buffer.rs`: the gap buffer is a
`List Nat` of bytes, `usize` values are `Nat`, and fallible paths return
`Option`/`Except`.  A Rust panic (out-of-bounds indexing, `unwrap` of `None`,
debug-mode integer underflow, `HashMap` indexing with a missing key) is
modelled as `Except.error ()`; an absent result is `Except.ok none`.

The repository sources provided do not include the modules `textobject`,
`log`, `iterators` and `input` (only `buffer.rs` imports them), so the
`TextObject` addressing types and the Edit Log are modelled from the spec,
as marked on the individual definitions.
-/

namespace Rinput

/-- Decidable equality on `Except`, so that claims about panicking
operations can be settled on concrete inputs by evaluation. -/
instance {ε α : Type} [DecidableEq ε] [DecidableEq α] : DecidableEq (Except ε α)
  | Except.ok a, Except.ok b =>
    match decEq a b with
    | isTrue h => isTrue (by rw [h])
    | isFalse h => isFalse (fun he => h (by cases he; rfl))
  | Except.ok _, Except.error _ => isFalse (fun he => Except.noConfusion he)
  | Except.error _, Except.ok _ => isFalse (fun he => Except.noConfusion he)
  | Except.error e, Except.error f =>
    match decEq e f with
    | isTrue h => isTrue (by rw [h])
    | isFalse h => isFalse (fun he => h (by cases he; rfl))

/-- Mark identities, from `buffer.rs` (enum `Mark`). -/
inductive Mark where
  | Cursor (n : Nat)
  | DisplayMark (n : Nat)
deriving DecidableEq, Repr

/-- Resolved mark state, from `buffer.rs` (struct `MarkPosition`). -/
structure MarkPosition where
  absolute : Nat
  absolute_line_start : Nat
  line_number : Nat
deriving DecidableEq, Repr

/-- `MarkPosition::start()` from `buffer.rs`. -/
def MarkPosition.start : MarkPosition := ⟨0, 0, 0⟩

/-- Modelled from the spec: anchor of a TextObject (spec section 3); the
module `textobject` is not among the provided sources.  The spec names the
anchors Start, End and Same. -/
inductive Anchor where
  | Start
  | End
  | Same
deriving DecidableEq, Repr

/-- Modelled from the spec: granularity of a TextObject (spec section 3). -/
inductive Kind where
  | Char
  | Line (anchor : Anchor)
  | Word (anchor : Anchor)
deriving DecidableEq, Repr

/-- Modelled from the spec: offset of a TextObject (spec section 3). -/
inductive Offset where
  | Forward (n : Nat) (m : Mark)
  | Backward (n : Nat) (m : Mark)
  | Absolute (n : Nat)
deriving DecidableEq, Repr

/-- Modelled from the spec: a navigation request (spec section 3). -/
structure TextObject where
  kind : Kind
  offset : Offset
deriving DecidableEq, Repr

/-- Modelled from the spec: a primitive Change of the Edit Log (spec
section 3); the module `log` is not among the provided sources. -/
inductive Change where
  | Insert (idx : Nat) (ch : Nat)
  | Remove (idx : Nat) (ch : Nat)
deriving DecidableEq, Repr

/-- Modelled from the spec: a Transaction, an ordered list of Changes
produced by one logical mutation (spec section 3). -/
structure LogEntry where
  changes : List Change
deriving DecidableEq, Repr

/-- Modelled from the spec: the Edit Log as a dual-stack history, with the
undo stack and the redo stack both most-recent-first (spec section 4.5). -/
structure Log where
  undoStack : List LogEntry
  redoStack : List LogEntry
deriving DecidableEq, Repr

/-- Modelled from the spec: `Log::new` yields an empty history. -/
def Log.new : Log := ⟨[], []⟩

/-- Modelled from the spec: starting a Transaction pushes a fresh empty
Transaction onto the undo stack and clears the redo stack entirely (spec
section 4.5); the recorded start point is not observable through any claim. -/
def Log.start (log : Log) (_point : Nat) : Log :=
  { undoStack := ⟨[]⟩ :: log.undoStack, redoStack := [] }

/-- Modelled from the spec: `Transaction::log` appends a Change to the
Transaction currently being accumulated (the top of the undo stack). -/
def Log.logChange (log : Log) (c : Change) : Log :=
  match log.undoStack with
  | [] => log
  | e :: rest => { log with undoStack := ⟨e.changes ++ [c]⟩ :: rest }

/-- Modelled from the spec: the byte-exact inverse of a Change (spec
section 4.5). -/
def Change.invert : Change → Change
  | .Insert i c => .Remove i c
  | .Remove i c => .Insert i c

/-- Modelled from the spec: the inverse of a Transaction inverts each Change
and reverses the recorded order (spec section 4.5). -/
def LogEntry.inverse (e : LogEntry) : LogEntry :=
  ⟨(e.changes.reverse).map Change.invert⟩

/-- Modelled from the spec: `Log::undo` pops the top Transaction from the
undo stack, hands back its inverse for replay, and pushes the original
Transaction onto the redo stack; no-op when the undo stack is empty (spec
section 4.5). -/
def Log.undo (log : Log) : Option (LogEntry × Log) :=
  match log.undoStack with
  | [] => none
  | e :: rest => some (e.inverse, ⟨rest, e :: log.redoStack⟩)

/-- Modelled from the spec: `Log::redo` pops the top Transaction from the
redo stack, hands it back for replay in the original order, and pushes it
back onto the undo stack; no-op when the redo stack is empty (spec
section 4.5). -/
def Log.redo (log : Log) : Option (LogEntry × Log) :=
  match log.redoStack with
  | [] => none
  | e :: rest => some (e, ⟨e :: log.undoStack, rest⟩)

/-- `GapBuffer::insert` (the `gapbuffer` crate): inserts a byte at an index,
shifting later content; callers in `buffer.rs` only use in-range indices. -/
def insertAt : List Nat → Nat → Nat → List Nat
  | l, 0, c => c :: l
  | [], _ + 1, c => [c]
  | x :: xs, n + 1, c => x :: insertAt xs n c

/-- `GapBuffer::remove` (the `gapbuffer` crate): removes and returns the byte
at an index, or `none` when the index is out of range. -/
def removeAt : List Nat → Nat → Option (Nat × List Nat)
  | [], _ => none
  | x :: xs, 0 => some (x, xs)
  | x :: xs, n + 1 => (removeAt xs n).map (fun p => (p.1, x :: p.2))

/-- Rust `char::is_whitespace` restricted to the byte range `0..=255`
(`c as char` in `WordEdgeMatch::is_word_edge`): the Unicode White_Space
code points below U+0100. -/
def isWhitespaceByte (c : Nat) : Bool :=
  c == 0x09 || c == 0x0A || c == 0x0B || c == 0x0C || c == 0x0D ||
  c == 0x20 || c == 0x85 || c == 0xA0

/-- `WordEdgeMatch::is_word_edge` from `buffer.rs` for the only strategy
(`Whitespace`): two newlines, or whitespace followed by non-whitespace. -/
def is_word_edge (c1 c2 : Nat) : Bool :=
  (c1 == 10 && c2 == 10) || (isWhitespaceByte c1 && !isWhitespaceByte c2)

/-- The mark table (`HashMap<Mark, MarkPosition>` in `buffer.rs`), as an
association list with unique keys. -/
def lookupMark : List (Mark × MarkPosition) → Mark → Option MarkPosition
  | [], _ => none
  | (k, v) :: rest, m => if k = m then some v else lookupMark rest m

/-- `HashMap` insert-or-overwrite, as used by `Buffer::set_mark`. -/
def setMarkEntry : List (Mark × MarkPosition) → Mark → MarkPosition →
    List (Mark × MarkPosition)
  | [], m, p => [(m, p)]
  | (k, v) :: rest, m, p =>
    if k = m then (m, p) :: rest else (k, v) :: setMarkEntry rest m p

/-- The Buffer facade from `buffer.rs`; the text is the byte content of the
gap buffer, and `file_path` keeps the originating path when there is one. -/
structure Buffer where
  text : List Nat
  log : Log
  marks : List (Mark × MarkPosition)
  file_path : Option String
  dirty : Bool
deriving DecidableEq, Repr

/-- `Buffer::new` from `buffer.rs`. -/
def Buffer.new : Buffer := ⟨[], Log.new, [], none, false⟩

/-- A buffer holding given text and nothing else (used to state claims). -/
def mkBuffer (text : List Nat) : Buffer := { Buffer.new with text := text }

/-- `Buffer::len` from `buffer.rs`: stored byte count plus one virtual end
slot. -/
def Buffer.len (b : Buffer) : Nat := b.text.length + 1

/-- The line-start predicate scanned by `get_line_info` in `buffer.rs`:
`*idx == 0 || text[*idx - 1] == b'\n'`. -/
def linePred (text : List Nat) (idx : Nat) : Bool :=
  idx == 0 || text.getD (idx - 1) 0 == 10

/-- The `line_starts` vector of `get_line_info` in `buffer.rs`:
`(0..val + 1).rev().filter(...)`. -/
def lineStarts (val : Nat) (text : List Nat) : List Nat :=
  ((List.range (val + 1)).reverse).filter (linePred text)

/-- `get_line_info` from `buffer.rs`: clamps the scan position to the stored
length, collects the line starts at or before it in descending order, and
builds a `MarkPosition` whose `absolute` is the original (unclamped) input. -/
def get_line_info (mark : Nat) (text : List Nat) : Option MarkPosition :=
  let val := min mark text.length
  let ls := lineStarts val text
  match ls with
  | [] => none
  | ls0 :: _ => some ⟨mark, ls0, ls.length - 1⟩

/-- Number of newline bytes at offsets strictly below `k` (used to state
the line-metadata claims). -/
def newlinesBelow (k : Nat) (text : List Nat) : Nat :=
  ((List.range k).filter (fun j => text.getD j 0 == 10)).length

/-- Rust `usize` subtraction in a debug build: panics on underflow. -/
def sub! (a b : Nat) : Except Unit Nat :=
  if b ≤ a then .ok (a - b) else .error ()

/-- Rust `Vec` indexing: panics when the index is out of bounds. -/
def idx! (l : List Nat) (i : Nat) : Except Unit Nat :=
  match l[i]? with
  | some x => .ok x
  | none => .error ()

/-- The forward newline scan of `get_line_index_forward` in `buffer.rs`:
offsets of `b'\n'` bytes in `absolute..text.len()`, ascending. -/
def forwardNewlines (a : Nat) (text : List Nat) : List Nat :=
  (List.range' a (text.length - a)).filter (fun i => text.getD i 0 == 10)

/-- The backward newline scan of `get_line_index_backward` in `buffer.rs`:
offsets of `b'\n'` bytes in `(0..absolute).rev()`, descending. -/
def backwardNewlines (a : Nat) (text : List Nat) : List Nat :=
  ((List.range a).reverse).filter (fun i => text.getD i 0 == 10)

/-- The newline offsets scanned from offset 0 by `get_line_index_absolute`
in `buffer.rs`. -/
def newlineOffsets (text : List Nat) : List Nat :=
  (List.range text.length).filter (fun i => text.getD i 0 == 10)

/-- The word-edge offsets scanned forward by `get_words` in `buffer.rs`:
indices in `mark + 1..text.len() - 1` whose predecessor/current pair is a
word edge, ascending. -/
def forwardWordEdges (mark : Nat) (text : List Nat) : List Nat :=
  (List.range' (mark + 1) ((text.length - 1) - (mark + 1))).filter
    (fun idx => is_word_edge (text.getD (idx - 1) 0) (text.getD idx 0))

/-- The word-edge offsets scanned backward by `get_words_rev` in
`buffer.rs`: indices in `(1..mark).rev()` whose predecessor/current pair is
a word edge, descending. -/
def backwardWordEdges (mark : Nat) (text : List Nat) : List Nat :=
  ((List.range' 1 (mark - 1)).reverse).filter
    (fun idx => is_word_edge (text.getD (idx - 1) 0) (text.getD idx 0))

/-- `get_words` from `buffer.rs`: `None` on empty text, otherwise the last
of the first `n_words` forward word edges (an `Iterator::take(n).last()`,
which yields the last edge found even when fewer than `n_words` exist). -/
def get_words (mark : Nat) (n_words : Nat) (text : List Nat) : Option Nat :=
  if text.length = 0 then none
  else ((forwardWordEdges mark text).take n_words).getLast?

/-- `get_words_rev` from `buffer.rs`: the last of the first `n_words`
backward word edges. -/
def get_words_rev (mark : Nat) (n_words : Nat) (text : List Nat) : Option Nat :=
  ((backwardWordEdges mark text).take n_words).getLast?

/-- `get_line_info(i, text).unwrap()` as used by several resolvers in
`buffer.rs`: an `unwrap` of `None` is a panic. -/
def lineInfoOrPanic (i : Nat) (text : List Nat) : Except Unit (Option MarkPosition) :=
  match get_line_info i text with
  | some p => .ok (some p)
  | none => .error ()

/-- `Buffer::get_char_index` from `buffer.rs`. -/
def Buffer.get_char_index (b : Buffer) (offset : Offset) :
    Except Unit (Option MarkPosition) :=
  let text := b.text
  match offset with
  | Offset.Forward n from_mark =>
    let last := b.len - 1
    match lookupMark b.marks from_mark with
    | none => .ok none
    | some mark_pos =>
      let new_absolute_position := mark_pos.absolute + n
      if new_absolute_position < last then lineInfoOrPanic new_absolute_position text
      else lineInfoOrPanic last text
  | Offset.Backward n from_mark =>
    match lookupMark b.marks from_mark with
    | none => .ok none
    | some mark_pos =>
      if n ≤ mark_pos.absolute then lineInfoOrPanic (mark_pos.absolute - n) text
      else .ok none
  | Offset.Absolute n => .ok (some ⟨n, 0, 0⟩)

/-- `Buffer::get_line_index_absolute` from `buffer.rs`: collects the first
`line_number + 1` newline offsets from offset 0; `Start` uses `nlines[0]`
and `line_number - 1`, `End` uses `nlines[line_number - 1]`; other anchors
print a diagnostic and return `None`. -/
def Buffer.get_line_index_absolute (b : Buffer) (anchor : Anchor)
    (line_number : Nat) : Except Unit (Option MarkPosition) :=
  let nlines := (newlineOffsets b.text).take (line_number + 1)
  match anchor with
  | Anchor.Start =>
    match idx! nlines 0 with
    | .error e => .error e
    | .ok l0 =>
      match sub! line_number 1 with
      | .error e => .error e
      | .ok lm => .ok (some ⟨l0 + 1, l0 + 1, lm⟩)
  | Anchor.End =>
    match sub! line_number 1 with
    | .error e => .error e
    | .ok lm =>
      match idx! nlines lm with
      | .error e => .error e
      | .ok en => .ok (some ⟨en, 0, 0⟩)
  | _ => .ok none

/-- `Buffer::get_line_index_backward` from `buffer.rs`. -/
def Buffer.get_line_index_backward (b : Buffer) (anchor : Anchor)
    (offset : Nat) (from_mark : Mark) : Except Unit (Option MarkPosition) :=
  match lookupMark b.marks from_mark with
  | none => .ok none
  | some mark_pos =>
    let nlines := (backwardNewlines mark_pos.absolute b.text).take (offset + 1)
    match anchor with
    | Anchor.Start =>
      if nlines.isEmpty then .ok (some MarkPosition.start)
      else
        match sub! mark_pos.absolute mark_pos.absolute_line_start with
        | .error e => .error e
        | .ok col =>
          match idx! nlines offset with
          | .error e => .error e
          | .ok no =>
            match idx! nlines 0 with
            | .error e => .error e
            | .ok n0 => .ok (some ⟨min (col + no + 1) no + 1, n0 + 1, nlines.length⟩)
    | Anchor.Same =>
      if offset = nlines.length then
        match sub! mark_pos.absolute mark_pos.absolute_line_start with
        | .error e => .error e
        | .ok col =>
          match idx! nlines 0 with
          | .error e => .error e
          | .ok n0 => .ok (some ⟨min col n0, 0, 0⟩)
      else if offset > nlines.length ∨ offset = 0 then
        .ok (some MarkPosition.start)
      else
        match sub! mark_pos.absolute mark_pos.absolute_line_start with
        | .error e => .error e
        | .ok col =>
          match idx! nlines offset with
          | .error e => .error e
          | .ok no =>
            match sub! offset 1 with
            | .error e => .error e
            | .ok om =>
              match idx! nlines om with
              | .error e => .error e
              | .ok prev =>
                match sub! mark_pos.line_number offset with
                | .error e => .error e
                | .ok ln =>
                  match idx! nlines (nlines.length - 1) with
                  | .error e => .error e
                  | .ok nlast => .ok (some ⟨min (col + no + 1) prev, nlast + 1, ln⟩)
    | _ => .ok none

/-- `Buffer::get_line_index_forward` from `buffer.rs`: returns `None`
outright when no newline follows the mark. -/
def Buffer.get_line_index_forward (b : Buffer) (anchor : Anchor)
    (offset : Nat) (from_mark : Mark) : Except Unit (Option MarkPosition) :=
  let last := b.len - 1
  match lookupMark b.marks from_mark with
  | none => .ok none
  | some mark_pos =>
    let nlines := (forwardNewlines mark_pos.absolute b.text).take (offset + 1)
    match nlines with
    | [] => .ok none
    | n0 :: _ =>
      match anchor with
      | Anchor.Same =>
        if offset = nlines.length then
          match sub! mark_pos.absolute mark_pos.absolute_line_start with
          | .error e => .error e
          | .ok col =>
            match sub! offset 1 with
            | .error e => .error e
            | .ok om =>
              match idx! nlines om with
              | .error e => .error e
              | .ok prev =>
                .ok (some ⟨min (col + prev + 1) last, prev + 1,
                           mark_pos.line_number + offset⟩)
        else if offset > nlines.length then
          .ok (some ⟨last, n0 + 1, (last - last) + 1⟩)
        else
          match sub! mark_pos.absolute mark_pos.absolute_line_start with
          | .error e => .error e
          | .ok col =>
            match sub! offset 1 with
            | .error e => .error e
            | .ok om =>
              match idx! nlines om with
              | .error e => .error e
              | .ok prev =>
                match idx! nlines offset with
                | .error e => .error e
                | .ok cur =>
                  .ok (some ⟨min (col + prev + 1) cur, n0 + 1,
                             mark_pos.line_number + offset⟩)
      | Anchor.End =>
        match sub! mark_pos.absolute mark_pos.absolute_line_start with
        | .error e => .error e
        | .ok col =>
          match idx! nlines offset with
          | .error e => .error e
          | .ok cur =>
            .ok (some ⟨min (col + cur + 1) cur, mark_pos.absolute_line_start,
                       mark_pos.line_number⟩)
      | _ => .ok none

/-- `Buffer::get_line_index` from `buffer.rs`. -/
def Buffer.get_line_index (b : Buffer) (offset : Offset) (anchor : Anchor) :
    Except Unit (Option MarkPosition) :=
  match offset with
  | Offset.Forward n m => b.get_line_index_forward anchor n m
  | Offset.Backward n m => b.get_line_index_backward anchor n m
  | Offset.Absolute n => b.get_line_index_absolute anchor n

/-- `Buffer::get_word_index_forward` from `buffer.rs`: on a found edge the
result is re-resolved through `get_line_info`; when no edge is found the
result degenerates to the last valid offset; an unhandled anchor prints a
diagnostic and also lands on the last valid offset. -/
def Buffer.get_word_index_forward (b : Buffer) (anchor : Anchor)
    (nth_word : Nat) (from_mark : Mark) : Except Unit (Option MarkPosition) :=
  let last := b.len - 1
  match lookupMark b.marks from_mark with
  | none => .ok none
  | some mark_pos =>
    match anchor with
    | Anchor.Start =>
      match get_words mark_pos.absolute nth_word b.text with
      | some new_index => lineInfoOrPanic new_index b.text
      | none => lineInfoOrPanic last b.text
    | _ => .ok (some ⟨last, 0, 0⟩)

/-- `Buffer::get_word_index_backward` from `buffer.rs`. -/
def Buffer.get_word_index_backward (b : Buffer) (anchor : Anchor)
    (nth_word : Nat) (from_mark : Mark) : Except Unit (Option MarkPosition) :=
  let last := b.len - 1
  match lookupMark b.marks from_mark with
  | none => .ok none
  | some mark_pos =>
    match anchor with
    | Anchor.Start =>
      match get_words_rev mark_pos.absolute nth_word b.text with
      | some new_index => lineInfoOrPanic new_index b.text
      | none => .ok (some MarkPosition.start)
    | _ => .ok (some ⟨last, 0, 0⟩)

/-- `Buffer::get_word_index_absolute` from `buffer.rs`: `word_number - 1`
underflows (panics) for 0, and the `get_words(...).unwrap()` panics whenever
fewer than `word_number - 1` word edges exist. -/
def Buffer.get_word_index_absolute (b : Buffer) (anchor : Anchor)
    (word_number : Nat) : Except Unit (Option MarkPosition) :=
  match anchor with
  | Anchor.Start =>
    match sub! word_number 1 with
    | .error e => .error e
    | .ok wn =>
      match get_words 0 wn b.text with
      | none => .error ()
      | some new_index => lineInfoOrPanic new_index b.text
  | _ => .ok none

/-- `Buffer::get_word_index` from `buffer.rs`. -/
def Buffer.get_word_index (b : Buffer) (offset : Offset) (anchor : Anchor) :
    Except Unit (Option MarkPosition) :=
  match offset with
  | Offset.Forward n m => b.get_word_index_forward anchor n m
  | Offset.Backward n m => b.get_word_index_backward anchor n m
  | Offset.Absolute n => b.get_word_index_absolute anchor n

/-- `Buffer::get_object_index` from `buffer.rs`. -/
def Buffer.get_object_index (b : Buffer) (obj : TextObject) :
    Except Unit (Option MarkPosition) :=
  match obj.kind with
  | Kind.Char => b.get_char_index obj.offset
  | Kind.Line anchor => b.get_line_index obj.offset anchor
  | Kind.Word anchor => b.get_word_index obj.offset anchor

/-- `Buffer::set_mark` from `buffer.rs`: resolves the index through
`get_line_info` and inserts or overwrites the table entry; silently drops
the request when resolution fails. -/
def Buffer.set_mark (b : Buffer) (mark : Mark) (idx : Nat) : Buffer :=
  match get_line_info idx b.text with
  | some mark_pos => { b with marks := setMarkEntry b.marks mark mark_pos }
  | none => b

/-- `Buffer::set_mark_to_object` from `buffer.rs`. -/
def Buffer.set_mark_to_object (b : Buffer) (mark : Mark) (obj : TextObject) :
    Except Unit Buffer :=
  match b.get_object_index obj with
  | .error e => .error e
  | .ok none => .ok b
  | .ok (some mark_pos) => .ok (b.set_mark mark mark_pos.absolute)

/-- `Buffer::insert_char` from `buffer.rs`: inserts at the mark's absolute
offset, starts a one-Change Transaction, and marks the buffer dirty; does
nothing when the mark is unset. -/
def Buffer.insert_char (b : Buffer) (mark : Mark) (ch : Nat) : Buffer :=
  match lookupMark b.marks mark with
  | none => b
  | some mark_pos =>
    { b with
      text := insertAt b.text mark_pos.absolute ch
      log := (b.log.start mark_pos.absolute).logChange
               (Change.Insert mark_pos.absolute ch)
      dirty := true }

/-- One step of the removal loop of `Buffer::remove_range` in `buffer.rs`:
attempt to remove the byte at `idx`; on success collect it and log a
`Remove` Change, on failure (out-of-range index) skip it. -/
def removeStep (acc : List Nat × List Nat × Log) (idx : Nat) :
    List Nat × List Nat × Log :=
  match removeAt acc.1 idx with
  | some (ch, text) => (text, acc.2.1 ++ [ch], acc.2.2.logChange (Change.Remove idx ch))
  | none => acc

/-- `Buffer::remove_range` from `buffer.rs`: marks dirty, starts a
Transaction, removes `(start..end).rev()` so later offsets go first, and
returns the removed bytes reversed back into left-to-right order.  Always
returns `some`. -/
def Buffer.remove_range (b : Buffer) (start e : Nat) :
    Option (List Nat) × Buffer :=
  let log0 := b.log.start start
  let res := ((List.range' start (e - start)).reverse).foldl removeStep
    (b.text, [], log0)
  (some res.2.1.reverse, { b with text := res.1, log := res.2.2, dirty := true })

/-- `Buffer::remove_from_mark_to_object` from `buffer.rs`: indexes the mark
table directly (`self.marks[&mark]`, a panic when the mark is unset) and
`unwrap`s the object resolution (a panic when it is absent), then removes
the span between the two offsets in either order. -/
def Buffer.remove_from_mark_to_object (b : Buffer) (mark : Mark)
    (object : TextObject) : Except Unit (Option (List Nat) × Buffer) :=
  match lookupMark b.marks mark with
  | none => .error ()
  | some mark_pos =>
    match b.get_object_index object with
    | .error e => .error e
    | .ok none => .error ()
    | .ok (some obj_pos) =>
      if mark_pos.absolute < obj_pos.absolute then
        .ok (b.remove_range mark_pos.absolute obj_pos.absolute)
      else
        .ok (b.remove_range obj_pos.absolute mark_pos.absolute)

/-- `commit` from `buffer.rs`: replays a Transaction's Changes in recorded
order directly against the text, ignoring failed removals. -/
def commit (transaction : LogEntry) (text : List Nat) : List Nat :=
  transaction.changes.foldl
    (fun t c =>
      match c with
      | Change.Insert idx ch => insertAt t idx ch
      | Change.Remove idx _ =>
        match removeAt t idx with
        | some p => p.2
        | none => t)
    text

/-- `Buffer::undo` from `buffer.rs`: replays the Transaction handed back by
`Log::undo` (its inverse) against the text; no-op when there is nothing to
undo. -/
def Buffer.undo (b : Buffer) : Option LogEntry × Buffer :=
  match b.log.undo with
  | none => (none, b)
  | some (entry, log) =>
    (some entry, { b with text := commit entry b.text, log := log })

/-- `Buffer::redo` from `buffer.rs`. -/
def Buffer.redo (b : Buffer) : Option LogEntry × Buffer :=
  match b.log.redo with
  | none => (none, b)
  | some (entry, log) =>
    (some entry, { b with text := commit entry b.text, log := log })

/-- A full UTF-8 validity check on a byte list, modelling the success
condition of Rust's `Read::read_to_string` in `impl From<R> for Buffer`
(which fails, leaving the buffer empty, unless the whole stream is valid
UTF-8). -/
def validUtf8 : List Nat → Bool
  | [] => true
  | b :: r =>
    if b ≤ 0x7F then validUtf8 r
    else if 0xC2 ≤ b ∧ b ≤ 0xDF then
      match r with
      | c1 :: r2 => (0x80 ≤ c1 && c1 ≤ 0xBF) && validUtf8 r2
      | _ => false
    else if b = 0xE0 then
      match r with
      | c1 :: c2 :: r2 =>
        (0xA0 ≤ c1 && c1 ≤ 0xBF) && (0x80 ≤ c2 && c2 ≤ 0xBF) && validUtf8 r2
      | _ => false
    else if (0xE1 ≤ b ∧ b ≤ 0xEC) ∨ b = 0xEE ∨ b = 0xEF then
      match r with
      | c1 :: c2 :: r2 =>
        (0x80 ≤ c1 && c1 ≤ 0xBF) && (0x80 ≤ c2 && c2 ≤ 0xBF) && validUtf8 r2
      | _ => false
    else if b = 0xED then
      match r with
      | c1 :: c2 :: r2 =>
        (0x80 ≤ c1 && c1 ≤ 0x9F) && (0x80 ≤ c2 && c2 ≤ 0xBF) && validUtf8 r2
      | _ => false
    else if b = 0xF0 then
      match r with
      | c1 :: c2 :: c3 :: r2 =>
        (0x90 ≤ c1 && c1 ≤ 0xBF) && (0x80 ≤ c2 && c2 ≤ 0xBF) &&
          (0x80 ≤ c3 && c3 ≤ 0xBF) && validUtf8 r2
      | _ => false
    else if 0xF1 ≤ b ∧ b ≤ 0xF3 then
      match r with
      | c1 :: c2 :: c3 :: r2 =>
        (0x80 ≤ c1 && c1 ≤ 0xBF) && (0x80 ≤ c2 && c2 ≤ 0xBF) &&
          (0x80 ≤ c3 && c3 ≤ 0xBF) && validUtf8 r2
      | _ => false
    else if b = 0xF4 then
      match r with
      | c1 :: c2 :: c3 :: r2 =>
        (0x80 ≤ c1 && c1 ≤ 0x8F) && (0x80 ≤ c2 && c2 ≤ 0xBF) &&
          (0x80 ≤ c3 && c3 ≤ 0xBF) && validUtf8 r2
      | _ => false
    else false

/-- A byte-readable source (`R: Read` in `buffer.rs`): its byte stream, and
whether reading it raises an I/O error. -/
structure Reader where
  bytes : List Nat
  ioError : Bool
deriving DecidableEq, Repr

/-- Rust `Read::read_to_string`: succeeds with exactly the source bytes when
there is no I/O error and the stream is valid UTF-8, fails otherwise. -/
def read_to_string (r : Reader) : Option (List Nat) :=
  if r.ioError || !validUtf8 r.bytes then none else some r.bytes

/-- `impl<R: Read + BufferFrom> From<R> for Buffer` from `buffer.rs`: starts
from an empty buffer and extends it with the read contents only when
`read_to_string` succeeded. -/
def Buffer.fromReader (r : Reader) : Buffer :=
  match read_to_string r with
  | some contents => { Buffer.new with text := contents }
  | none => Buffer.new

/-- `impl From<PathBuf> for Buffer` from `buffer.rs`: on a successful open,
reads the file and retains the path; on an open failure, silently yields
`Buffer::new()`.  The filesystem is abstracted as the `Option Reader`
outcome of `File::open`. -/
def Buffer.fromPath (openResult : Option Reader) (path : String) : Buffer :=
  match openResult with
  | some r => { Buffer.fromReader r with file_path := some path }
  | none => Buffer.new

/-- A two-line buffer "x\ny" with `Cursor 0` set to offset 0, used to
exercise the overrun-clamping paths on concrete input. -/
def c2WitnessBuffer : Buffer := (mkBuffer [120, 10, 121]).set_mark (Mark.Cursor 0) 0

/-! ### Structure of the `get_line_info` scan -/

theorem lineStarts_zero (text : List Nat) : lineStarts 0 text = [0] := by
  simp [lineStarts, linePred, List.range_succ]

theorem lineStarts_succ (text : List Nat) (v : Nat) :
    lineStarts (v + 1) text =
      if text.getD v 0 == 10 then (v + 1) :: lineStarts v text
      else lineStarts v text := by
  have h1 : List.range (v + 1 + 1) = List.range (v + 1) ++ [v + 1] :=
    List.range_succ (v + 1)
  have hp : linePred text (v + 1) = (text.getD v 0 == 10) := by
    simp [linePred]
  unfold lineStarts
  rw [h1, List.reverse_append, List.reverse_singleton, List.singleton_append,
    List.filter_cons, hp]

theorem lineStarts_ne_nil (text : List Nat) (v : Nat) : lineStarts v text ≠ [] := by
  induction v with
  | zero => simp [lineStarts_zero]
  | succ v ih =>
    rw [lineStarts_succ]
    split
    · simp
    · exact ih

theorem newlinesBelow_zero (text : List Nat) : newlinesBelow 0 text = 0 := rfl

theorem newlinesBelow_succ (text : List Nat) (v : Nat) :
    newlinesBelow (v + 1) text =
      if text.getD v 0 == 10 then newlinesBelow v text + 1
      else newlinesBelow v text := by
  unfold newlinesBelow
  rw [List.range_succ v, List.filter_append, List.length_append]
  by_cases hc : text[v]?.getD 0 = 10 <;> simp [hc, List.getD_eq_getElem?_getD]

theorem lineStarts_length (text : List Nat) (v : Nat) :
    (lineStarts v text).length = newlinesBelow v text + 1 := by
  induction v with
  | zero => simp [lineStarts_zero, newlinesBelow_zero]
  | succ v ih =>
    rw [lineStarts_succ, newlinesBelow_succ]
    split <;> simp [ih]

theorem lineStarts_head_le (text : List Nat) (v : Nat) (h : Nat) (t : List Nat)
    (he : lineStarts v text = h :: t) : h ≤ v := by
  induction v generalizing h t with
  | zero => rw [lineStarts_zero] at he; cases he; exact Nat.le_refl 0
  | succ v ih =>
    rw [lineStarts_succ] at he
    split at he
    · cases he; exact Nat.le_refl (v + 1)
    · exact Nat.le_succ_of_le (ih h t he)

theorem lineStarts_head_newlines (text : List Nat) (v : Nat) (h : Nat)
    (t : List Nat) (he : lineStarts v text = h :: t) :
    newlinesBelow h text = newlinesBelow v text := by
  induction v generalizing h t with
  | zero => rw [lineStarts_zero] at he; cases he; rfl
  | succ v ih =>
    rw [lineStarts_succ] at he
    split at he
    · cases he
      rfl
    · rename_i hc
      simp only [List.getD_eq_getElem?_getD] at hc
      rw [ih h t he, newlinesBelow_succ]
      simp [hc, List.getD_eq_getElem?_getD]

theorem get_line_info_spec (mark : Nat) (text : List Nat) :
    ∃ p : MarkPosition, get_line_info mark text = some p ∧
      p.absolute = mark ∧
      p.absolute_line_start ≤ min mark text.length ∧
      p.line_number = newlinesBelow p.absolute_line_start text ∧
      p.line_number = newlinesBelow (min mark text.length) text := by
  obtain ⟨h, t, he⟩ :=
    List.exists_cons_of_ne_nil (lineStarts_ne_nil text (min mark text.length))
  refine ⟨⟨mark, h, (lineStarts (min mark text.length) text).length - 1⟩, ?_, rfl, ?_, ?_, ?_⟩
  · simp only [get_line_info, he]
  · exact lineStarts_head_le text _ h t he
  · show (lineStarts (min mark text.length) text).length - 1 = newlinesBelow h text
    rw [lineStarts_length, lineStarts_head_newlines text _ h t he]
    simp
  · show (lineStarts (min mark text.length) text).length - 1 =
      newlinesBelow (min mark text.length) text
    rw [lineStarts_length]
    simp

/-! ### Gap-buffer insert/remove round trip -/

theorem removeAt_insertAt (l : List Nat) (n c : Nat) (h : n ≤ l.length) :
    removeAt (insertAt l n c) n = some (c, l) := by
  induction l generalizing n with
  | nil =>
    have hn : n = 0 := Nat.le_zero.mp h
    subst hn
    rfl
  | cons x xs ih =>
    cases n with
    | zero => rfl
    | succ n =>
      have h2 : n ≤ xs.length := by simpa using h
      show removeAt (x :: insertAt xs n c) (n + 1) = some (c, x :: xs)
      unfold removeAt
      rw [ih n h2]
      rfl

/-! ### Mark-table lemmas -/

theorem lookup_setMarkEntry (ms : List (Mark × MarkPosition)) (m : Mark)
    (p : MarkPosition) : lookupMark (setMarkEntry ms m p) m = some p := by
  induction ms with
  | nil => simp [setMarkEntry, lookupMark]
  | cons e rest ih =>
    obtain ⟨k, v⟩ := e
    unfold setMarkEntry
    by_cases hk : k = m
    · rw [if_pos hk]
      simp [lookupMark]
    · rw [if_neg hk]
      simp [lookupMark, hk, ih]

/-! ### Claim C4 -/

/-- C4 (counterexample): `get_line_info` does not clamp the returned
`absolute` field: for offset 6 on the 5-byte content "hello" (logical
length 6) it returns `absolute = 6`, which is not strictly less than the
logical length, contradicting the claim that `absolute` is the offset
clamped into `[0, length)`. -/
theorem get_line_info_no_clamp_counterexample :
    get_line_info 6 [104, 101, 108, 108, 111] = some ⟨6, 0, 0⟩ ∧
      ¬ (6 : Nat) < [104, 101, 108, 108, 111].length + 1 := by
  decide

/-- C4 (amended): for every offset and storage content, `get_line_info`
returns a result rather than absent; the returned `absolute` equals the
given offset unchanged (only the line-start scan position is clamped), the
returned `absolute_line_start` is at most `min offset length`, and the
returned `line_number` counts the newlines before `absolute_line_start`.
In particular `absolute` is within `[0, length)` exactly when the given
offset is. -/
theorem get_line_info_amended (mark : Nat) (text : List Nat) :
    ∃ p : MarkPosition, get_line_info mark text = some p ∧
      p.absolute = mark ∧
      p.absolute_line_start ≤ min mark text.length ∧
      p.line_number = newlinesBelow p.absolute_line_start text := by
  obtain ⟨p, h1, h2, h3, h4, _⟩ := get_line_info_spec mark text
  exact ⟨p, h1, h2, h3, h4⟩

/-! ### Claim C5 -/

/-- C5 (counterexample): the mark-table invariant does not survive every
operation sequence.  First, `set_mark` with the out-of-range index 5 on
content "abc" stores `absolute = 5`, which is not below the logical
length 4.  Second, after `set_mark` at the in-range index 2 of "a\nb"
followed by `remove_range(0, 2)`, the stored position keeps
`absolute = 2` and `line_number = 1` although the logical length is now 2
and the remaining text "b" has no newline before offset 2. -/
theorem mark_invariant_counterexample :
    (lookupMark ((mkBuffer [97, 98, 99]).set_mark (Mark.Cursor 0) 5).marks
        (Mark.Cursor 0) = some ⟨5, 0, 0⟩ ∧
      ¬ (5 : Nat) < ((mkBuffer [97, 98, 99]).set_mark (Mark.Cursor 0) 5).len) ∧
    (lookupMark ((((mkBuffer [97, 10, 98]).set_mark (Mark.Cursor 0) 2).remove_range
          0 2).2).marks (Mark.Cursor 0) = some ⟨2, 2, 1⟩ ∧
      ¬ (2 : Nat) <
        ((((mkBuffer [97, 10, 98]).set_mark (Mark.Cursor 0) 2).remove_range 0 2).2).len ∧
      ¬ (1 : Nat) = newlinesBelow 2
        ((((mkBuffer [97, 10, 98]).set_mark (Mark.Cursor 0) 2).remove_range 0 2).2).text) := by
  decide

/-- C5 (amended): the invariant holds at resolution time: immediately after
`set_mark(mark, idx)` with an in-range index (`idx < length`), the stored
MarkPosition satisfies `absolute_line_start <= absolute < length` and its
`line_number` equals the number of newline bytes before
`absolute_line_start` in the current text; the table is not re-resolved by
later mutations, so the invariant is not maintained across them, nor
established by out-of-range `set_mark` calls. -/
theorem mark_invariant_after_set_mark (b : Buffer) (m : Mark) (idx : Nat)
    (h : idx < b.len) :
    ∃ pos : MarkPosition, lookupMark (b.set_mark m idx).marks m = some pos ∧
      pos.absolute_line_start ≤ pos.absolute ∧
      pos.absolute < (b.set_mark m idx).len ∧
      pos.line_number = newlinesBelow pos.absolute_line_start
        (b.set_mark m idx).text := by
  obtain ⟨p, hg, ha, hs, hn, _⟩ := get_line_info_spec idx b.text
  have hbm : b.set_mark m idx = { b with marks := setMarkEntry b.marks m p } := by
    unfold Buffer.set_mark
    rw [hg]
  rw [hbm]
  refine ⟨p, lookup_setMarkEntry b.marks m p, ?_, ?_, hn⟩
  · exact le_trans hs (le_trans (Nat.min_le_left _ _) (Nat.le_of_eq ha.symm))
  · rw [ha]
    exact h

/-- C5 witness: a concrete in-range `set_mark` establishing the invariant. -/
theorem mark_invariant_after_set_mark_witness :
    (2 : Nat) < (mkBuffer [97, 10, 98]).len ∧
    ∃ pos : MarkPosition,
      lookupMark ((mkBuffer [97, 10, 98]).set_mark (Mark.Cursor 0) 2).marks
        (Mark.Cursor 0) = some pos ∧
      pos.absolute_line_start ≤ pos.absolute ∧
      pos.absolute < ((mkBuffer [97, 10, 98]).set_mark (Mark.Cursor 0) 2).len ∧
      pos.line_number = newlinesBelow pos.absolute_line_start
        ((mkBuffer [97, 10, 98]).set_mark (Mark.Cursor 0) 2).text :=
  ⟨by decide, mark_invariant_after_set_mark (mkBuffer [97, 10, 98]) (Mark.Cursor 0) 2
    (by decide)⟩

/-! ### Claim C1 -/

/-- C1: for every buffer content and every mark set to a valid position,
`insert_char` at the mark followed by `undo` restores the text byte for
byte. -/
theorem insert_char_undo_round_trip (b : Buffer) (m : Mark)
    (pos : MarkPosition) (ch : Nat) (hm : lookupMark b.marks m = some pos)
    (hv : pos.absolute < b.len) :
    ((b.insert_char m ch).undo).2.text = b.text := by
  have ha : pos.absolute ≤ b.text.length := by
    unfold Buffer.len at hv
    omega
  unfold Buffer.insert_char
  rw [hm]
  show commit ⟨[Change.Remove pos.absolute ch]⟩ (insertAt b.text pos.absolute ch) =
    b.text
  unfold commit
  simp only [List.foldl_cons, List.foldl_nil]
  rw [removeAt_insertAt b.text pos.absolute ch ha]

/-- C1 witness: inserting 'X' at a mark on offset 0 of "hi" and undoing
restores "hi". -/
theorem insert_char_undo_round_trip_witness :
    lookupMark ((mkBuffer [104, 105]).set_mark (Mark.Cursor 0) 0).marks
        (Mark.Cursor 0) = some ⟨0, 0, 0⟩ ∧
      (0 : Nat) < ((mkBuffer [104, 105]).set_mark (Mark.Cursor 0) 0).len ∧
      ((((mkBuffer [104, 105]).set_mark (Mark.Cursor 0) 0).insert_char
          (Mark.Cursor 0) 88).undo).2.text =
        ((mkBuffer [104, 105]).set_mark (Mark.Cursor 0) 0).text :=
  ⟨by decide, by decide,
    insert_char_undo_round_trip ((mkBuffer [104, 105]).set_mark (Mark.Cursor 0) 0)
      (Mark.Cursor 0) ⟨0, 0, 0⟩ 88 (by decide) (by decide)⟩

/-! ### Claim C9 -/

/-- C9: `undo` and `redo` modify only the text storage (and the log): every
mark-table entry, the dirty flag and the file path are identical before and
after the call, whether or not a transaction was replayed. -/
theorem undo_redo_frame (b : Buffer) :
    ((b.undo).2.marks = b.marks ∧ (b.undo).2.dirty = b.dirty ∧
      (b.undo).2.file_path = b.file_path) ∧
    ((b.redo).2.marks = b.marks ∧ (b.redo).2.dirty = b.dirty ∧
      (b.redo).2.file_path = b.file_path) := by
  constructor
  · cases hq : b.log.undoStack <;>
      simp [Buffer.undo, Log.undo, hq]
  · cases hq : b.log.redoStack <;>
      simp [Buffer.redo, Log.redo, hq]

/-! ### The removal loop of `remove_range` -/

theorem removeAt_eq_some (l : List Nat) (i : Nat) (h : i < l.length) :
    removeAt l i = some (l.getD i 0, l.take i ++ l.drop (i + 1)) := by
  induction l generalizing i with
  | nil => simp at h
  | cons x xs ih =>
    cases i with
    | zero => rfl
    | succ i =>
      have h2 : i < xs.length := by simpa using h
      show (removeAt xs i).map (fun p => (p.1, x :: p.2)) = _
      rw [ih i h2]
      rfl

theorem getD_append_left (l1 l2 : List Nat) (i : Nat) (h : i < l1.length)
    (d : Nat) : (l1 ++ l2).getD i d = l1.getD i d := by
  rw [List.getD_eq_getElem?_getD, List.getD_eq_getElem?_getD,
    List.getElem?_append_left h]

theorem getD_take_of_lt (l : List Nat) (i n : Nat) (h : i < n) (d : Nat) :
    (l.take n).getD i d = l.getD i d := by
  rw [List.getD_eq_getElem?_getD, List.getD_eq_getElem?_getD,
    List.getElem?_take_of_lt h]

theorem logChange_cons (cs : List Change) (stack redo : List LogEntry)
    (c : Change) :
    Log.logChange ⟨⟨cs⟩ :: stack, redo⟩ c = ⟨⟨cs ++ [c]⟩ :: stack, redo⟩ := rfl

theorem removeStep_eq_some (text vec : List Nat) (log : Log) (i ch : Nat)
    (t2 : List Nat) (hr : removeAt text i = some (ch, t2)) :
    removeStep (text, vec, log) i =
      (t2, vec ++ [ch], log.logChange (Change.Remove i ch)) := by
  unfold removeStep
  dsimp only
  rw [hr]

theorem removeStep_eq_none (text vec : List Nat) (log : Log) (i : Nat)
    (hr : removeAt text i = none) :
    removeStep (text, vec, log) i = (text, vec, log) := by
  unfold removeStep
  dsimp only
  rw [hr]

theorem removeFold_shape (idxs : List Nat) (text vec : List Nat)
    (cs : List Change) (stack redo : List LogEntry) :
    ∃ text2 vec2 cs2,
      idxs.foldl removeStep (text, vec, (⟨⟨cs⟩ :: stack, redo⟩ : Log))
        = (text2, vec2, (⟨⟨cs2⟩ :: stack, redo⟩ : Log)) := by
  induction idxs generalizing text vec cs with
  | nil => exact ⟨text, vec, cs, rfl⟩
  | cons i rest ih =>
    rw [List.foldl_cons]
    unfold removeStep
    cases hr : removeAt text i with
    | none =>
      simp only [hr]
      exact ih text vec cs
    | some p =>
      obtain ⟨ch, t2⟩ := p
      simp only [hr]
      exact ih t2 (vec ++ [ch]) (cs ++ [Change.Remove i ch])

theorem removeFold_exact (n : Nat) (s : Nat) (text vec : List Nat)
    (cs : List Change) (stack redo : List LogEntry)
    (h : s + n ≤ text.length) :
    ((List.range' s n).reverse).foldl removeStep
        (text, vec, (⟨⟨cs⟩ :: stack, redo⟩ : Log))
      = (text.take s ++ text.drop (s + n),
         vec ++ ((List.range' s n).reverse).map (fun i => text.getD i 0),
         ⟨⟨cs ++ ((List.range' s n).reverse).map
            (fun i => Change.Remove i (text.getD i 0))⟩ :: stack, redo⟩) := by
  induction n generalizing text vec cs with
  | zero => simp
  | succ n ih =>
    rw [List.range'_1_concat, List.reverse_append, List.reverse_singleton,
      List.singleton_append, List.foldl_cons]
    have hsn : s + n < text.length := by omega
    have hrm : removeAt text (s + n) =
        some (text.getD (s + n) 0, text.take (s + n) ++ text.drop (s + n + 1)) :=
      removeAt_eq_some text (s + n) hsn
    rw [removeStep_eq_some text vec _ (s + n) _ _ hrm, logChange_cons]
    have hA : (text.take (s + n)).length = s + n := by
      rw [List.length_take]
      omega
    have hlen2 : s + n ≤ (text.take (s + n) ++ text.drop (s + n + 1)).length := by
      rw [List.length_append, List.length_take, List.length_drop]
      omega
    rw [ih (text.take (s + n) ++ text.drop (s + n + 1))
      (vec ++ [text.getD (s + n) 0])
      (cs ++ [Change.Remove (s + n) (text.getD (s + n) 0)]) hlen2]
    have hmap : ∀ i ∈ (List.range' s n).reverse,
        (text.take (s + n) ++ text.drop (s + n + 1)).getD i 0 = text.getD i 0 := by
      intro i hi
      rw [List.mem_reverse, List.mem_range'_1] at hi
      have hilt : i < s + n := by omega
      rw [getD_append_left _ _ i (by omega), getD_take_of_lt _ _ _ hilt]
    have htake : (text.take (s + n) ++ text.drop (s + n + 1)).take s =
        text.take s := by
      rw [List.take_append_of_le_length (by omega), List.take_take]
      have : min s (s + n) = s := by omega
      rw [this]
    have hdrop : (text.take (s + n) ++ text.drop (s + n + 1)).drop (s + n) =
        text.drop (s + n + 1) := by
      have hd := List.drop_left (text.take (s + n)) (text.drop (s + n + 1))
      rwa [hA] at hd
    rw [htake, hdrop, List.map_congr_left hmap,
      List.map_congr_left (fun i hi => congrArg (fun x => Change.Remove i x) (hmap i hi))]
    simp [List.append_assoc]
    rfl

/-! ### Claim C6 -/

/-- C6: for every `start <= end` within bounds, `remove_range` removes
exactly the bytes at offsets `[start, end)`, records one `Remove` Change
per removed byte in descending offset order inside one fresh Transaction,
and returns the removed bytes in their original left-to-right order. -/
theorem remove_range_spec (b : Buffer) (s e : Nat) (h1 : s ≤ e)
    (h2 : e ≤ b.text.length) :
    (b.remove_range s e).1 =
      some ((List.range' s (e - s)).map (fun i => b.text.getD i 0)) ∧
    (b.remove_range s e).2.text = b.text.take s ++ b.text.drop e ∧
    (b.remove_range s e).2.log.undoStack =
      ⟨((List.range' s (e - s)).reverse).map
        (fun i => Change.Remove i (b.text.getD i 0))⟩ :: b.log.undoStack ∧
    (b.remove_range s e).2.log.redoStack = [] := by
  have hse : s + (e - s) = e := by omega
  have hlen : s + (e - s) ≤ b.text.length := by omega
  unfold Buffer.remove_range
  rw [show b.log.start s = (⟨⟨[]⟩ :: b.log.undoStack, []⟩ : Log) from rfl]
  dsimp only
  rw [removeFold_exact (e - s) s b.text [] [] b.log.undoStack [] hlen, hse]
  refine ⟨?_, rfl, ?_, rfl⟩
  · show some ([] ++ ((List.range' s (e - s)).reverse.map
        (fun i => b.text.getD i 0))).reverse = _
    rw [List.nil_append, List.map_reverse, List.reverse_reverse]
  · show (⟨[] ++ (List.range' s (e - s)).reverse.map
        (fun i => Change.Remove i (b.text.getD i 0))⟩ : LogEntry) :: b.log.undoStack = _
    rw [List.nil_append]

/-- C6 witness: `remove_range(0, 5)` on "hello\nworld\n" returns
['h','e','l','l','o'] in order and leaves "\nworld\n". -/
theorem remove_range_spec_witness :
    (0 : Nat) ≤ 5 ∧ (5 : Nat) ≤ (mkBuffer [104, 101, 108, 108, 111, 10, 119,
      111, 114, 108, 100, 10]).text.length ∧
    (((mkBuffer [104, 101, 108, 108, 111, 10, 119, 111, 114, 108, 100, 10]).remove_range
        0 5).1 =
      some ((List.range' 0 (5 - 0)).map
        (fun i => (mkBuffer [104, 101, 108, 108, 111, 10, 119, 111, 114, 108,
          100, 10]).text.getD i 0)) ∧
    ((mkBuffer [104, 101, 108, 108, 111, 10, 119, 111, 114, 108, 100, 10]).remove_range
        0 5).2.text =
      (mkBuffer [104, 101, 108, 108, 111, 10, 119, 111, 114, 108, 100, 10]).text.take 0 ++
        (mkBuffer [104, 101, 108, 108, 111, 10, 119, 111, 114, 108, 100, 10]).text.drop 5 ∧
    ((mkBuffer [104, 101, 108, 108, 111, 10, 119, 111, 114, 108, 100, 10]).remove_range
        0 5).2.log.undoStack =
      ⟨((List.range' 0 (5 - 0)).reverse).map
        (fun i => Change.Remove i ((mkBuffer [104, 101, 108, 108, 111, 10, 119,
          111, 114, 108, 100, 10]).text.getD i 0))⟩ ::
        (mkBuffer [104, 101, 108, 108, 111, 10, 119, 111, 114, 108, 100, 10]).log.undoStack ∧
    ((mkBuffer [104, 101, 108, 108, 111, 10, 119, 111, 114, 108, 100, 10]).remove_range
        0 5).2.log.redoStack = []) :=
  ⟨by decide, by decide,
    remove_range_spec (mkBuffer [104, 101, 108, 108, 111, 10, 119, 111, 114,
      108, 100, 10]) 0 5 (by decide) (by decide)⟩

/-! ### Claim C10 -/

/-- C10: `remove_range` always returns a present result, even when
`start >= end` or the range runs past the end of the text (out-of-range
indices are silently skipped), and it unconditionally sets `dirty` and
starts a fresh Transaction (pushing one new undo entry and clearing the
redo stack) even when no byte is removed. -/
theorem remove_range_total (b : Buffer) (s e : Nat) :
    ((b.remove_range s e).1).isSome = true ∧
    (b.remove_range s e).2.dirty = true ∧
    (b.remove_range s e).2.log.undoStack.length = b.log.undoStack.length + 1 ∧
    (b.remove_range s e).2.log.redoStack = [] := by
  obtain ⟨t2, v2, cs2, he⟩ := removeFold_shape ((List.range' s (e - s)).reverse)
    b.text [] [] b.log.undoStack []
  unfold Buffer.remove_range
  rw [show b.log.start s = (⟨⟨[]⟩ :: b.log.undoStack, []⟩ : Log) from rfl]
  dsimp only
  rw [he]
  simp

/-! ### Claim C3 -/

/-- C3 (counterexample): on content "a\nb\nc\n" with `line_number = 1` and
anchor `End`, the claim predicts the (line_number+1)-th = 2nd newline
boundary, offset 3, but `get_line_index_absolute` returns
`nlines[line_number - 1]`, the 1st boundary, offset 1. -/
theorem line_index_absolute_counterexample :
    (mkBuffer [97, 10, 98, 10, 99, 10]).get_line_index_absolute Anchor.End 1 =
      .ok (some ⟨1, 0, 0⟩) ∧ (1 : Nat) ≠ 3 := by
  decide

/-- C3 (amended): `get_line_index_absolute` scans from offset 0 collecting
up to `line_number + 1` newline boundaries, but with `Anchor.Start` the
resolved absolute offset is one past the FIRST boundary (`nlines[0] + 1`,
regardless of `line_number`, which only sets the stored line number to
`line_number - 1`), and with `Anchor.End` the resolved absolute offset is
the `line_number`-th boundary (`nlines[line_number - 1]`), not the
`(line_number+1)`-th; both branches require `line_number >= 1` and enough
newlines, otherwise they abort. -/
theorem line_index_absolute_amended (b : Buffer) (ln : Nat) (h1 : 1 ≤ ln)
    (h2 : ln - 1 < (newlineOffsets b.text).length) :
    b.get_line_index_absolute Anchor.End ln =
      .ok (some ⟨(newlineOffsets b.text).getD (ln - 1) 0, 0, 0⟩) ∧
    b.get_line_index_absolute Anchor.Start ln =
      .ok (some ⟨(newlineOffsets b.text).getD 0 0 + 1,
                 (newlineOffsets b.text).getD 0 0 + 1, ln - 1⟩) := by
  have hsub : sub! ln 1 = .ok (ln - 1) := by
    unfold sub!
    rw [if_pos h1]
  have hidx : idx! ((newlineOffsets b.text).take (ln + 1)) (ln - 1) =
      .ok ((newlineOffsets b.text).getD (ln - 1) 0) := by
    unfold idx!
    rw [List.getElem?_take_of_lt (by omega), List.getElem?_eq_getElem h2,
      List.getD_eq_getElem (newlineOffsets b.text) 0 h2]
  have hidx0 : idx! ((newlineOffsets b.text).take (ln + 1)) 0 =
      .ok ((newlineOffsets b.text).getD 0 0) := by
    have h0 : 0 < (newlineOffsets b.text).length := by omega
    unfold idx!
    rw [List.getElem?_take_of_lt (by omega), List.getElem?_eq_getElem h0,
      List.getD_eq_getElem (newlineOffsets b.text) 0 h0]
  constructor
  · unfold Buffer.get_line_index_absolute
    dsimp only
    rw [hsub]
    dsimp only
    rw [hidx]
  · unfold Buffer.get_line_index_absolute
    dsimp only
    rw [hidx0]
    dsimp only
    rw [hsub]

/-- C3 witness: on "a\nb\nc\n" with `line_number = 2`, `End` resolves to
offset 3 (the 2nd newline) and `Start` to offset 2 (one past the first
newline). -/
theorem line_index_absolute_amended_witness :
    (1 : Nat) ≤ 2 ∧
      (2 : Nat) - 1 < (newlineOffsets (mkBuffer [97, 10, 98, 10, 99, 10]).text).length ∧
      ((mkBuffer [97, 10, 98, 10, 99, 10]).get_line_index_absolute Anchor.End 2 =
        .ok (some ⟨(newlineOffsets (mkBuffer [97, 10, 98, 10, 99, 10]).text).getD
          (2 - 1) 0, 0, 0⟩) ∧
      (mkBuffer [97, 10, 98, 10, 99, 10]).get_line_index_absolute Anchor.Start 2 =
        .ok (some ⟨(newlineOffsets (mkBuffer [97, 10, 98, 10, 99, 10]).text).getD 0 0 + 1,
          (newlineOffsets (mkBuffer [97, 10, 98, 10, 99, 10]).text).getD 0 0 + 1,
          2 - 1⟩)) :=
  ⟨by decide, by decide,
    line_index_absolute_amended (mkBuffer [97, 10, 98, 10, 99, 10]) 2 (by decide)
      (by decide)⟩

/-! ### Word- and line-scan reductions for the clamping claims -/

theorem mem_of_getLast_eq (l : List Nat) (a : Nat) (h : l.getLast? = some a) :
    a ∈ l := by
  cases l with
  | nil => simp at h
  | cons x xs =>
    rw [List.getLast?_eq_getLast_of_ne_nil (List.cons_ne_nil x xs)] at h
    rw [← Option.some_inj.mp h]
    exact List.getLast_mem (List.cons_ne_nil x xs)

theorem get_words_overrun (a n : Nat) (text : List Nat)
    (h : (forwardWordEdges a text).length ≤ n) :
    get_words a n text = (forwardWordEdges a text).getLast? := by
  unfold get_words
  by_cases h0 : text.length = 0
  · rw [if_pos h0]
    have he : forwardWordEdges a text = [] := by
      unfold forwardWordEdges
      rw [h0]
      have h1 : (0 - 1) - (a + 1) = 0 := by omega
      rw [h1]
      rfl
    rw [he]
    rfl
  · rw [if_neg h0, List.take_of_length_le h]

theorem get_words_rev_overrun (a n : Nat) (text : List Nat)
    (h : (backwardWordEdges a text).length ≤ n) :
    get_words_rev a n text = (backwardWordEdges a text).getLast? := by
  unfold get_words_rev
  rw [List.take_of_length_le h]

theorem forwardWordEdges_lt (a : Nat) (text : List Nat) (i : Nat)
    (hi : i ∈ forwardWordEdges a text) : i < text.length := by
  unfold forwardWordEdges at hi
  rw [List.mem_filter] at hi
  have h2 := hi.1
  rw [List.mem_range'_1] at h2
  omega

theorem backwardWordEdges_lt (a : Nat) (text : List Nat) (i : Nat)
    (hi : i ∈ backwardWordEdges a text) : i < a := by
  unfold backwardWordEdges at hi
  rw [List.mem_filter] at hi
  have h2 := hi.1
  rw [List.mem_reverse, List.mem_range'_1] at h2
  omega

theorem lineInfoOrPanic_spec (i : Nat) (text : List Nat) :
    ∃ p : MarkPosition, lineInfoOrPanic i text = .ok (some p) ∧
      p.absolute = i := by
  obtain ⟨p, h1, h2, _, _, _⟩ := get_line_info_spec i text
  refine ⟨p, ?_, h2⟩
  unfold lineInfoOrPanic
  rw [h1]

/-! ### Claim C2 -/

/-- C2 (counterexample): a Forward word request whose count exceeds the
available boundaries does not clamp to the buffer's last valid offset when
at least one boundary exists: on "a b c" with the mark at 0 and count 5,
only one word edge (offset 2) is scanned, and the result is offset 2, not
the last valid offset 5. -/
theorem word_forward_overrun_counterexample :
    ((mkBuffer [97, 32, 98, 32, 99]).set_mark (Mark.Cursor 0) 0).get_word_index_forward
        Anchor.Start 5 (Mark.Cursor 0) = .ok (some ⟨2, 0, 0⟩) ∧
      (2 : Nat) ≠
        ((mkBuffer [97, 32, 98, 32, 99]).set_mark (Mark.Cursor 0) 0).len - 1 := by
  decide

/-- C2 (amended): for requests from a set mark (at a stored offset within
the text) whose count exceeds the boundaries available in the requested
direction: a Forward word request resolves to the LAST boundary found, or
to the buffer's last valid offset only when no boundary exists; a Backward
word request resolves to the earliest boundary found, or to offset 0 when
none exists; a Forward line request with anchor Same resolves to the last
valid offset (when at least one boundary exists; with none it returns
absent); a Backward line request with anchor Same resolves to offset 0, as
does a Backward line request with anchor Start when no boundary precedes
the mark (other line anchors abort or return absent on overrun).  Every
offset so resolved lies within `[0, length)`. -/
theorem overrun_clamping_amended (b : Buffer) (m : Mark) (pos : MarkPosition)
    (n : Nat) (hm : lookupMark b.marks m = some pos)
    (ha : pos.absolute ≤ b.text.length) :
    ((forwardWordEdges pos.absolute b.text).length < n →
      ∃ p : MarkPosition, b.get_word_index_forward Anchor.Start n m = .ok (some p) ∧
        p.absolute = ((forwardWordEdges pos.absolute b.text).getLast?).getD
          b.text.length ∧
        p.absolute < b.len) ∧
    ((backwardWordEdges pos.absolute b.text).length < n →
      ∃ p : MarkPosition, b.get_word_index_backward Anchor.Start n m = .ok (some p) ∧
        p.absolute = ((backwardWordEdges pos.absolute b.text).getLast?).getD 0 ∧
        p.absolute < b.len) ∧
    (1 ≤ (forwardNewlines pos.absolute b.text).length →
      (forwardNewlines pos.absolute b.text).length < n →
      ∃ p : MarkPosition, b.get_line_index_forward Anchor.Same n m = .ok (some p) ∧
        p.absolute = b.text.length ∧ p.absolute < b.len) ∧
    ((backwardNewlines pos.absolute b.text).length < n →
      b.get_line_index_backward Anchor.Same n m = .ok (some MarkPosition.start)) ∧
    (backwardNewlines pos.absolute b.text = [] →
      b.get_line_index_backward Anchor.Start n m = .ok (some MarkPosition.start)) := by
  refine ⟨?_, ?_, ?_, ?_, ?_⟩
  · -- Forward word
    intro hn
    unfold Buffer.get_word_index_forward
    rw [hm]
    dsimp only
    rw [get_words_overrun _ _ _ (Nat.le_of_lt hn)]
    cases hL : (forwardWordEdges pos.absolute b.text).getLast? with
    | none =>
      obtain ⟨p, hP, hPa⟩ := lineInfoOrPanic_spec (b.len - 1) b.text
      refine ⟨p, hP, ?_, ?_⟩
      · rw [hPa]
        rfl
      · rw [hPa]
        unfold Buffer.len
        omega
    | some i =>
      obtain ⟨p, hP, hPa⟩ := lineInfoOrPanic_spec i b.text
      have hib : i < b.text.length :=
        forwardWordEdges_lt pos.absolute b.text i (mem_of_getLast_eq _ _ hL)
      refine ⟨p, hP, ?_, ?_⟩
      · rw [hPa]
        rfl
      · rw [hPa]
        unfold Buffer.len
        omega
  · -- Backward word
    intro hn
    unfold Buffer.get_word_index_backward
    rw [hm]
    dsimp only
    rw [get_words_rev_overrun _ _ _ (Nat.le_of_lt hn)]
    cases hL : (backwardWordEdges pos.absolute b.text).getLast? with
    | none =>
      refine ⟨MarkPosition.start, rfl, rfl, ?_⟩
      show (0 : Nat) < b.len
      unfold Buffer.len
      omega
    | some i =>
      obtain ⟨p, hP, hPa⟩ := lineInfoOrPanic_spec i b.text
      have hib : i < pos.absolute :=
        backwardWordEdges_lt pos.absolute b.text i (mem_of_getLast_eq _ _ hL)
      refine ⟨p, hP, ?_, ?_⟩
      · rw [hPa]
        rfl
      · rw [hPa]
        unfold Buffer.len
        omega
  · -- Forward line, anchor Same, overrun with at least one boundary
    intro h1 hn
    unfold Buffer.get_line_index_forward
    rw [hm]
    dsimp only
    rw [List.take_of_length_le (by omega)]
    have hFne : forwardNewlines pos.absolute b.text ≠ [] := by
      intro hF0
      rw [hF0] at h1
      simp at h1
    obtain ⟨n0, rest, hF⟩ := List.exists_cons_of_ne_nil hFne
    rw [hF] at hn ⊢
    dsimp only
    rw [if_neg (by omega), if_pos (by omega)]
    refine ⟨_, rfl, ?_, ?_⟩
    · rfl
    · show b.text.length + 1 - 1 < b.len
      unfold Buffer.len
      omega
  · -- Backward line, anchor Same, overrun
    intro hn
    unfold Buffer.get_line_index_backward
    rw [hm]
    dsimp only
    rw [List.take_of_length_le (by omega)]
    rw [if_neg (by omega), if_pos (Or.inl hn)]
  · -- Backward line, anchor Start, no boundary before the mark
    intro hE
    unfold Buffer.get_line_index_backward
    rw [hm]
    dsimp only
    rw [hE]
    rfl

/-- C2 witness: the buffer "x\ny" with the mark at offset 0 and count 5
exceeds every available boundary count in both directions. -/
theorem overrun_clamping_amended_witness :
    lookupMark c2WitnessBuffer.marks (Mark.Cursor 0) = some ⟨0, 0, 0⟩ ∧
    (0 : Nat) ≤ c2WitnessBuffer.text.length ∧
    (((forwardWordEdges 0 c2WitnessBuffer.text).length < 5 →
      ∃ p : MarkPosition, c2WitnessBuffer.get_word_index_forward Anchor.Start 5
          (Mark.Cursor 0) = .ok (some p) ∧
        p.absolute = ((forwardWordEdges 0 c2WitnessBuffer.text).getLast?).getD
          c2WitnessBuffer.text.length ∧
        p.absolute < c2WitnessBuffer.len) ∧
    ((backwardWordEdges 0 c2WitnessBuffer.text).length < 5 →
      ∃ p : MarkPosition, c2WitnessBuffer.get_word_index_backward Anchor.Start 5
          (Mark.Cursor 0) = .ok (some p) ∧
        p.absolute = ((backwardWordEdges 0 c2WitnessBuffer.text).getLast?).getD 0 ∧
        p.absolute < c2WitnessBuffer.len) ∧
    (1 ≤ (forwardNewlines 0 c2WitnessBuffer.text).length →
      (forwardNewlines 0 c2WitnessBuffer.text).length < 5 →
      ∃ p : MarkPosition, c2WitnessBuffer.get_line_index_forward Anchor.Same 5
          (Mark.Cursor 0) = .ok (some p) ∧
        p.absolute = c2WitnessBuffer.text.length ∧ p.absolute < c2WitnessBuffer.len) ∧
    ((backwardNewlines 0 c2WitnessBuffer.text).length < 5 →
      c2WitnessBuffer.get_line_index_backward Anchor.Same 5 (Mark.Cursor 0) =
        .ok (some MarkPosition.start)) ∧
    (backwardNewlines 0 c2WitnessBuffer.text = [] →
      c2WitnessBuffer.get_line_index_backward Anchor.Start 5 (Mark.Cursor 0) =
        .ok (some MarkPosition.start))) :=
  ⟨by decide, by decide,
    overrun_clamping_amended c2WitnessBuffer (Mark.Cursor 0) ⟨0, 0, 0⟩ 5
      (by decide) (by decide)⟩

/-! ### Claim C7 -/

/-- C7 (counterexample): `remove_from_mark_to_object` with an unset mark
aborts (`self.marks[&mark]` panics) instead of yielding an absent result,
and a `Line` `Absolute` resolution on a buffer without enough newlines also
aborts — so the Word/Absolute overrun is not the only aborting path. -/
theorem abort_paths_counterexample :
    Buffer.new.remove_from_mark_to_object (Mark.Cursor 0)
        ⟨Kind.Char, Offset.Absolute 0⟩ = .error () ∧
      (mkBuffer [97]).get_line_index_absolute Anchor.End 1 = .error () := by
  decide

/-- C7 (amended): resolving an Absolute word index beyond the buffer's
actual word count (or index 0) does abort, but it is not the only aborting
path: `remove_from_mark_to_object` aborts both on an unset mark and on a
TextObject that resolves to an absent result, rather than returning an
absent result itself. -/
theorem abort_paths_amended (b : Buffer) (wn : Nat) (m : Mark)
    (obj : TextObject) (pos : MarkPosition) :
    (wn = 0 ∨ get_words 0 (wn - 1) b.text = none →
      b.get_word_index_absolute Anchor.Start wn = .error ()) ∧
    (lookupMark b.marks m = none →
      b.remove_from_mark_to_object m obj = .error ()) ∧
    (lookupMark b.marks m = some pos → b.get_object_index obj = .ok none →
      b.remove_from_mark_to_object m obj = .error ()) := by
  refine ⟨?_, ?_, ?_⟩
  · intro h
    unfold Buffer.get_word_index_absolute
    cases wn with
    | zero => rfl
    | succ n =>
      cases h with
      | inl h0 => exact absurd h0 (Nat.succ_ne_zero n)
      | inr hw =>
        have hs : sub! (n + 1) 1 = .ok n := by
          unfold sub!
          rw [if_pos (by omega)]
          rfl
        have hw2 : get_words 0 n b.text = none := hw
        dsimp only
        rw [hs]
        dsimp only
        rw [hw2]
  · intro h
    unfold Buffer.remove_from_mark_to_object
    rw [h]
  · intro h1 h2
    unfold Buffer.remove_from_mark_to_object
    rw [h1]
    dsimp only
    rw [h2]

/-- C7 witness: the three abort paths at concrete inputs — Absolute word
index 1 on an empty buffer, an unset mark, and a set mark with a
`Char`/`Backward` object that underflows to an absent resolution. -/
theorem abort_paths_amended_witness :
    Buffer.new.get_word_index_absolute Anchor.Start 1 = .error () ∧
    Buffer.new.remove_from_mark_to_object (Mark.Cursor 1)
      ⟨Kind.Char, Offset.Absolute 0⟩ = .error () ∧
    ((mkBuffer [104]).set_mark (Mark.Cursor 0) 0).remove_from_mark_to_object
      (Mark.Cursor 0) ⟨Kind.Char, Offset.Backward 5 (Mark.Cursor 0)⟩ = .error () :=
  ⟨(abort_paths_amended Buffer.new 1 (Mark.Cursor 1)
      ⟨Kind.Char, Offset.Absolute 0⟩ ⟨0, 0, 0⟩).1 (Or.inr (by decide)),
   (abort_paths_amended Buffer.new 1 (Mark.Cursor 1)
      ⟨Kind.Char, Offset.Absolute 0⟩ ⟨0, 0, 0⟩).2.1 (by decide),
   (abort_paths_amended ((mkBuffer [104]).set_mark (Mark.Cursor 0) 0) 1
      (Mark.Cursor 0) ⟨Kind.Char, Offset.Backward 5 (Mark.Cursor 0)⟩
      ⟨0, 0, 0⟩).2.2 (by decide) (by decide)⟩

/-! ### Claim C8 -/

/-- C8 (counterexample): a byte-readable source whose bytes are not valid
UTF-8 (here the single byte 0xFF) does not yield a buffer with exactly the
source bytes — `read_to_string` fails and the buffer stays empty. -/
theorem from_reader_non_utf8_counterexample :
    (Buffer.fromReader ⟨[255], false⟩).text = [] ∧ ([255] : List Nat) ≠ [] := by
  decide

/-- C8 (amended): construction from a path whose open fails silently yields
the empty buffer with no error signal, and construction from a byte-readable
source yields a buffer with exactly the source bytes provided reading
succeeds, i.e. there is no I/O error and the bytes are valid UTF-8
(`read_to_string`); otherwise the buffer stays empty. -/
theorem construction_amended (path : String) (r : Reader)
    (h1 : r.ioError = false) (h2 : validUtf8 r.bytes = true) :
    Buffer.fromPath none path = Buffer.new ∧
    (Buffer.fromReader r).text = r.bytes := by
  refine ⟨rfl, ?_⟩
  unfold Buffer.fromReader read_to_string
  rw [h1, h2]
  rfl

/-- C8 witness: reading the valid-UTF-8 source "hi". -/
theorem construction_amended_witness :
    (⟨[104, 105], false⟩ : Reader).ioError = false ∧
    validUtf8 [104, 105] = true ∧
    (Buffer.fromPath none "f" = Buffer.new ∧
      (Buffer.fromReader ⟨[104, 105], false⟩).text = [104, 105]) :=
  ⟨rfl, by decide, construction_amended "f" ⟨[104, 105], false⟩ rfl (by decide)⟩

end Rinput

